import Mathlib

/-!
Verification of the alpha-renaming pass (`src/renamer.rs`) of a small
functional-language compiler.  The renamer rewrites an AST whose identifiers
are interned source symbols into an isomorphic AST whose identifiers are
`Name` values pairing the symbol with a unique integer tag (`uid`), where
`uid = 0` is the sentinel for global/free references.

The embedding below follows `src/renamer.rs` directly.  The auxiliary types
that the renamer uses but whose sources are not part of the given code base
(`ScopedMap` from `scoped_map.rs`, the AST types from `module.rs`, interned
strings from `interner.rs`) are modelled from the specification, as noted on
each such definition.
-/

namespace Renaming

/-- Modelled from the spec: interned strings (`interner.rs` is not among the
given sources).  The spec only requires a comparable, hashable token type, so
we use `String`. -/
abbrev InternedStr := String

/-- Modelled from the spec: type annotations are opaque payload carried
through unchanged, so they are represented by an opaque token. -/
abbrev TypeRep := Nat

/-- Modelled from the spec: source locations are opaque payload carried
through unchanged. -/
abbrev Location := Nat

/-- Modelled from the spec: a binding's optional type declaration is opaque
payload carried through unchanged. -/
abbrev TypeDecl := Nat

/-- `Name` (src/renamer.rs:6-10): an interned symbol paired with a uid.
Equality is structural. -/
structure Name where
  name : InternedStr
  uid : Nat
deriving DecidableEq, Repr

/-- Modelled from the spec: a located AST node (`module.rs` is not among the
given sources); the location is opaque payload. -/
structure Located (T : Type) where
  location : Location
  node : T
deriving DecidableEq, Repr

/-- Modelled from the spec: patterns (`module.rs` is not among the given
sources); the four variants are exactly those matched by
`Renamer::rename_pattern` (src/renamer.rs:101-111). -/
inductive Pattern (α : Type) : Type where
  | NumberPattern (i : Int)
  | ConstructorPattern (s : α) (ps : List (Pattern α))
  | IdentifierPattern (s : α)
  | WildCardPattern

mutual

/-- Modelled from the spec: expressions (`module.rs` is not among the given
sources); the variants are exactly those matched by `Renamer::rename`
(src/renamer.rs:46-99).  The `Rational` payload (an `f64` in the source) is
opaque pass-through data and is modelled by an opaque token. -/
inductive Expr (α : Type) : Type where
  | Number (n : Int)
  | Rational (r : Int)
  | StringE (s : String)
  | CharE (c : Char)
  | Identifier (i : α)
  | Apply (func arg : TypedExpr α)
  | Lambda (arg : α) (body : TypedExpr α)
  | Let (bindings : List (Binding α)) (body : TypedExpr α)
  | Case (scrutinee : TypedExpr α) (alts : List (Alternative α))
  | Do (bindings : List (DoBinding α)) (last : TypedExpr α)

/-- Modelled from the spec: a typed expression carries the expression
proper together with a type annotation and a source location, both opaque
(src/renamer.rs:47, 96-98). -/
inductive TypedExpr (α : Type) : Type where
  | mk (expr : Expr α) (typ : TypeRep) (location : Location)

/-- Modelled from the spec: a binding `{name, expression, typeDecl, arity}`
as destructured in src/renamer.rs:34 and 120. -/
inductive Binding (α : Type) : Type where
  | mk (name : α) (expression : TypedExpr α) (typeDecl : TypeDecl) (arity : Nat)

/-- Modelled from the spec: a case alternative, a located pattern together
with an expression (src/renamer.rs:70-75). -/
inductive Alternative (α : Type) : Type where
  | mk (pattern : Located (Pattern α)) (expression : TypedExpr α)

/-- Modelled from the spec: do-block statements, the three variants matched
in src/renamer.rs:83-91. -/
inductive DoBinding (α : Type) : Type where
  | DoExpr (e : TypedExpr α)
  | DoLet (bs : List (Binding α))
  | DoBind (p : Located (Pattern α)) (e : TypedExpr α)

end

/-- The `name` field of a binding. -/
def Binding.name {α : Type} : Binding α → α
  | .mk n _ _ _ => n

/-- The `expression` field of a binding. -/
def Binding.expression {α : Type} : Binding α → TypedExpr α
  | .mk _ e _ _ => e

/-- Looking a symbol up in one scope frame.  A frame is an association list
whose head is the most recently inserted entry, so the first match realises
the spec's most-recent-insert-wins rule within a frame. -/
def frameLookup : List (InternedStr × Name) → InternedStr → Option Name
  | [], _ => none
  | (k', v) :: rest, k => if k' = k then some v else frameLookup rest k

/-- Looking a symbol up in a stack of frames, innermost first. -/
def findInFrames : List (List (InternedStr × Name)) → InternedStr → Option Name
  | [], _ => none
  | f :: fs, k =>
    match frameLookup f k with
    | some v => some v
    | none => findInFrames fs k

/-- Modelled from the spec: the scoped symbol table (`scoped_map.rs` is not
among the given sources).  Per §3/§4.1 it is an ordered stack of lexical
frames mapping symbol to `Name`; `enter_scope` pushes an empty frame,
`exit_scope` pops the innermost frame, `insert` writes into the innermost
frame only, and lookup scans frames innermost-to-outermost with
most-recent-insert-wins inside a frame.  The map starts with a single base
(module-level/global) frame so that insertions made with no scope entered
(e.g. by `rename_module`) land somewhere. -/
structure ScopedMap where
  frames : List (List (InternedStr × Name))
deriving Repr

/-- Modelled from the spec: a fresh scoped map with only the base frame. -/
def ScopedMap.new : ScopedMap := ⟨[[]]⟩

/-- Modelled from the spec: push an empty innermost frame. -/
def ScopedMap.enter_scope (m : ScopedMap) : ScopedMap := ⟨[] :: m.frames⟩

/-- Modelled from the spec: pop the innermost frame, discarding its
entries. -/
def ScopedMap.exit_scope (m : ScopedMap) : ScopedMap := ⟨m.frames.tail⟩

/-- Modelled from the spec: insert into the innermost frame only, shadowing
any same-symbol entry of outer frames (and any older entry of the same
frame) for lookups. -/
def ScopedMap.insert (m : ScopedMap) (k : InternedStr) (v : Name) : ScopedMap :=
  match m.frames with
  | [] => ⟨[[(k, v)]]⟩
  | f :: fs => ⟨((k, v) :: f) :: fs⟩

/-- Modelled from the spec: lookup scans frames innermost-to-outermost and
returns the first match. -/
def ScopedMap.find (m : ScopedMap) (k : InternedStr) : Option Name :=
  findInFrames m.frames k

/-- The renamer state (src/renamer.rs:21-24): the scoped map of unique
names and the uid counter.  The extra `issued` field is a specification-only
ghost trace recording, in order, every uid handed out by `make_unique`; it
has no counterpart in the source, is never read by any renaming function,
and exists solely so that theorems can speak about "the uids issued during a
pass". -/
structure Renamer where
  uniques : ScopedMap
  unique_id : Nat
  issued : List Nat

/-- `Renamer::make_unique` (src/renamer.rs:130-135): increment the counter
first, then issue the incremented value as the uid of a fresh `Name`,
register it in the scoped map, and return it.  (The ghost `issued` trace
additionally records the uid.) -/
def Renamer.make_unique (r : Renamer) (name : InternedStr) : Name × Renamer :=
  let new_id := r.unique_id + 1
  let u : Name := { name := name, uid := new_id }
  (u, { uniques := r.uniques.insert name u, unique_id := new_id,
        issued := r.issued ++ [new_id] })

/-- Scope entry, lifted to the renamer state (`self.uniques.enter_scope()`). -/
def Renamer.enter_scope (r : Renamer) : Renamer :=
  { r with uniques := r.uniques.enter_scope }

/-- Scope exit, lifted to the renamer state (`self.uniques.exit_scope()`). -/
def Renamer.exit_scope (r : Renamer) : Renamer :=
  { r with uniques := r.uniques.exit_scope }

/-- `Renamer::get_name` (src/renamer.rs:112-117): look the symbol up; if
found, reuse the stored uid; otherwise the variable is treated as a global
and gets uid 0.  It does not modify the renamer state (it takes `&self` in
the source). -/
def Renamer.get_name (r : Renamer) (s : InternedStr) : Name :=
  match r.uniques.find s with
  | some n => { name := s, uid := n.uid }
  | none => { name := s, uid := 0 }

/-- Phase one of `Renamer::rename_bindings` (src/renamer.rs:30-32): the
`for` loop registering a fresh unique name for every binding of the group
before any of their expressions is renamed. -/
def registerBindings (r : Renamer) : List (Binding InternedStr) → Renamer
  | [] => r
  | .mk name _ _ _ :: rest => registerBindings (r.make_unique name).2 rest

mutual

/-- `Renamer::rename` on a typed expression (src/renamer.rs:46-99): rename
the inner expression and carry the type annotation and location through
unchanged.  The `Option` threads the one fatal failure of the pass, the
`.expect` in `rename_bindings` (src/renamer.rs:36): `none` models that
abort. -/
def rename (r : Renamer) : TypedExpr InternedStr → Option (TypedExpr Name × Renamer)
  | .mk e typ location =>
    match renameE r e with
    | none => none
    | some (e', r') => some (.mk e' typ location, r')

/-- The per-variant body of `Renamer::rename` (src/renamer.rs:48-95),
following the source's evaluation order: in `Case` the alternatives are
renamed before the scrutinee, and in `Do` the statements before the final
expression, exactly as the eager `collect()` calls in the source do. -/
def renameE (r : Renamer) : Expr InternedStr → Option (Expr Name × Renamer)
  | .Number n => some (.Number n, r)
  | .Rational q => some (.Rational q, r)
  | .StringE s => some (.StringE s, r)
  | .CharE c => some (.CharE c, r)
  | .Identifier i => some (.Identifier (r.get_name i), r)
  | .Apply func arg =>
    match rename r func with
    | none => none
    | some (func', r1) =>
      match rename r1 arg with
      | none => none
      | some (arg', r2) => some (.Apply func' arg', r2)
  | .Lambda arg body =>
    let r1 := r.enter_scope
    let (n, r2) := r1.make_unique arg
    match rename r2 body with
    | none => none
    | some (body', r3) => some (.Lambda n body', r3.exit_scope)
  | .Let bindings body =>
    let r1 := registerBindings r.enter_scope bindings
    match renameBindingsRest r1 bindings with
    | none => none
    | some (bindings', r2) =>
      match rename r2 body with
      | none => none
      | some (body', r3) => some (.Let bindings' body', r3.exit_scope)
  | .Case scrutinee alts =>
    match renameAlts r alts with
    | none => none
    | some (alts', r1) =>
      match rename r1 scrutinee with
      | none => none
      | some (scrutinee', r2) => some (.Case scrutinee' alts', r2)
  | .Do bindings last =>
    match renameDoBindings r bindings with
    | none => none
    | some (bindings', r1) =>
      match rename r1 last with
      | none => none
      | some (last', r2) => some (.Do bindings' last', r2)

/-- Phase two of `Renamer::rename_bindings` (src/renamer.rs:33-43): for each
binding, look its own name up in the just-populated map — the `.expect`
abort on a missing name is modelled by `none` — and rename its
expression. -/
def renameBindingsRest (r : Renamer) : List (Binding InternedStr) → Option (List (Binding Name) × Renamer)
  | [] => some ([], r)
  | .mk name expression typeDecl arity :: rest =>
    match r.uniques.find name with
    | none => none
    | some n =>
      match rename r expression with
      | none => none
      | some (expression', r1) =>
        match renameBindingsRest r1 rest with
        | none => none
        | some (rest', r2) => some (.mk n expression' typeDecl arity :: rest', r2)

/-- The alternative loop of the `Case` arm (src/renamer.rs:69-78): each
alternative enters its own scope, renames its pattern and then its
expression, and exits the scope again. -/
def renameAlts (r : Renamer) : List (Alternative InternedStr) → Option (List (Alternative Name) × Renamer)
  | [] => some ([], r)
  | .mk (Located.mk loc pattern) expression :: rest =>
    let r1 := r.enter_scope
    let (pattern', r2) := rename_pattern r1 pattern
    match rename r2 expression with
    | none => none
    | some (expression', r3) =>
      let r4 := r3.exit_scope
      match renameAlts r4 rest with
      | none => none
      | some (rest', r5) =>
        some (.mk (Located.mk loc pattern') expression' :: rest', r5)

/-- The statement loop of the `Do` arm (src/renamer.rs:82-92): a plain
expression statement is renamed as-is; a let-group statement runs the same
two-phase `rename_bindings` protocol as `Let` but with no surrounding
`enter_scope`/`exit_scope`; a pattern-bind statement renames its pattern
(into the current scope) and then its expression. -/
def renameDoBindings (r : Renamer) : List (DoBinding InternedStr) → Option (List (DoBinding Name) × Renamer)
  | [] => some ([], r)
  | .DoExpr e :: rest =>
    match rename r e with
    | none => none
    | some (e', r1) =>
      match renameDoBindings r1 rest with
      | none => none
      | some (rest', r2) => some (.DoExpr e' :: rest', r2)
  | .DoLet bs :: rest =>
    let r1 := registerBindings r bs
    match renameBindingsRest r1 bs with
    | none => none
    | some (bs', r2) =>
      match renameDoBindings r2 rest with
      | none => none
      | some (rest', r3) => some (.DoLet bs' :: rest', r3)
  | .DoBind (Located.mk location node) e :: rest =>
    let (node', r1) := rename_pattern r node
    match rename r1 e with
    | none => none
    | some (e', r2) =>
      match renameDoBindings r2 rest with
      | none => none
      | some (rest', r3) =>
        some (.DoBind (Located.mk location node') e' :: rest', r3)

/-- `Renamer::rename_pattern` (src/renamer.rs:101-111): number and wildcard
patterns pass through; a constructor pattern renames its sub-patterns and
wraps the constructor symbol as `Name{symbol, uid:0}` unconditionally; an
identifier pattern allocates one fresh binding in the current scope. -/
def rename_pattern (r : Renamer) : Pattern InternedStr → Pattern Name × Renamer
  | .NumberPattern i => (.NumberPattern i, r)
  | .ConstructorPattern s ps =>
    let (ps', r') := renamePatterns r ps
    (.ConstructorPattern { name := s, uid := 0 } ps', r')
  | .IdentifierPattern s =>
    let (n, r') := r.make_unique s
    (.IdentifierPattern n, r')
  | .WildCardPattern => (.WildCardPattern, r)

/-- The sub-pattern loop of the `ConstructorPattern` arm
(src/renamer.rs:105). -/
def renamePatterns (r : Renamer) : List (Pattern InternedStr) → List (Pattern Name) × Renamer
  | [] => ([], r)
  | p :: ps =>
    let (p', r1) := rename_pattern r p
    let (ps', r2) := renamePatterns r1 ps
    (p' :: ps', r2)

end

/-- `Renamer::rename_bindings` (src/renamer.rs:28-44): register fresh names
for all bindings of the group first, then look each binding's name up and
rename its expression. -/
def rename_bindings (r : Renamer) (bindings : List (Binding InternedStr)) :
    Option (List (Binding Name) × Renamer) :=
  renameBindingsRest (registerBindings r bindings) bindings

/-- `Renamer::rename_binding` (src/renamer.rs:119-127): the binding's own
name becomes `Name{symbol, uid:0}` directly — never looked up and never
freshly allocated — and its expression is renamed against the current
scope. -/
def rename_binding (r : Renamer) : Binding InternedStr → Option (Binding Name × Renamer)
  | .mk name expression typeDecl arity =>
    match rename r expression with
    | none => none
    | some (expression', r') =>
      some (.mk { name := name, uid := 0 } expression' typeDecl arity, r')

/-- The fresh renamer state both public entry points start from
(src/renamer.rs:138 and 143): an empty scoped map and the counter at 1
(with an empty ghost trace). -/
def initRenamer : Renamer :=
  { uniques := ScopedMap.new, unique_id := 1, issued := [] }

/-- `rename_expr` (src/renamer.rs:137-140): rename a single expression with
a fresh renamer state. -/
def rename_expr (expr : TypedExpr InternedStr) : Option (TypedExpr Name) :=
  (rename initRenamer expr).map Prod.fst

/-- Modelled from the spec: a data constructor `{name, typ, tag, arity}` as
destructured in src/renamer.rs:160-165 (`module.rs` is not among the given
sources); all fields but the name are opaque pass-through payload. -/
structure Constructor (α : Type) where
  name : α
  typ : TypeRep
  tag : Nat
  arity : Nat

/-- Modelled from the spec: a data definition `{constructors, typ,
parameters}` as destructured in src/renamer.rs:154-158; `typ` and
`parameters` are opaque pass-through payload. -/
structure DataDefinition (α : Type) where
  constructors : List (Constructor α)
  typ : TypeRep
  parameters : Nat

/-- Modelled from the spec: a type-class instance `{bindings, constraints,
typ, classname}` as destructured in src/renamer.rs:182-187; all fields but
the bindings are opaque pass-through payload. -/
structure Instance (α : Type) where
  bindings : List (Binding α)
  constraints : Nat
  typ : TypeRep
  classname : InternedStr

/-- Modelled from the spec: a module as destructured in
src/renamer.rs:144-151; `classes` and `typeDeclarations` are opaque
pass-through payload. -/
structure Module (α : Type) where
  name : α
  classes : Nat
  dataDefinitions : List (DataDefinition α)
  typeDeclarations : Nat
  bindings : List (Binding α)
  instances : List (Instance α)

/-- The constructor loop of `rename_module` (src/renamer.rs:159-172): each
constructor's name becomes `Name{symbol, uid:0}`; type, tag and arity pass
through. -/
def renameConstructor : Constructor InternedStr → Constructor Name
  | ⟨name, typ, tag, arity⟩ => ⟨{ name := name, uid := 0 }, typ, tag, arity⟩

/-- The data-definition loop of `rename_module` (src/renamer.rs:153-179). -/
def renameDataDefinition : DataDefinition InternedStr → DataDefinition Name
  | ⟨ctors, typ, parameters⟩ => ⟨ctors.map renameConstructor, typ, parameters⟩

/-- A list of bindings renamed one after the other through
`rename_binding`, as the instance-binding loop (src/renamer.rs:189) and the
top-level-binding loop (src/renamer.rs:196) do. -/
def renameBindingList (r : Renamer) : List (Binding InternedStr) → Option (List (Binding Name) × Renamer)
  | [] => some ([], r)
  | b :: rest =>
    match rename_binding r b with
    | none => none
    | some (b', r1) =>
      match renameBindingList r1 rest with
      | none => none
      | some (rest', r2) => some (b' :: rest', r2)

/-- The instance loop of `rename_module` (src/renamer.rs:181-194): each
instance's bindings are renamed individually with `rename_binding`;
constraints, type and class name pass through. -/
def renameInstanceList (r : Renamer) : List (Instance InternedStr) → Option (List (Instance Name) × Renamer)
  | [] => some ([], r)
  | ⟨bindings, constraints, typ, classname⟩ :: rest =>
    match renameBindingList r bindings with
    | none => none
    | some (bindings', r1) =>
      match renameInstanceList r1 rest with
      | none => none
      | some (rest', r2) => some (⟨bindings', constraints, typ, classname⟩ :: rest', r2)

/-- `rename_module` (src/renamer.rs:142-206) with the final renamer state
exposed: data definitions are rewritten purely (constructor names become
uid 0), then the instances' bindings, then the top-level bindings (both via
`rename_binding`, sharing one renamer), and finally the module's own name
is allocated fresh via `make_unique`. -/
def renameModuleAux (module : Module InternedStr) : Option (Module Name × Renamer) :=
  let data_definitions2 := module.dataDefinitions.map renameDataDefinition
  match renameInstanceList initRenamer module.instances with
  | none => none
  | some (instances2, r1) =>
    match renameBindingList r1 module.bindings with
    | none => none
    | some (bindings2, r2) =>
      let (n, r3) := r2.make_unique module.name
      some ({ name := n, classes := module.classes,
              dataDefinitions := data_definitions2,
              typeDeclarations := module.typeDeclarations,
              bindings := bindings2, instances := instances2 }, r3)

/-- `rename_module` (src/renamer.rs:142-206): rename a whole module with a
fresh renamer state. -/
def rename_module (module : Module InternedStr) : Option (Module Name) :=
  (renameModuleAux module).map Prod.fst

/-! ### Shape functions

`mapPattern f`/`mapTE f` replace every identifier payload of a pattern or
expression tree by its image under `f`, leaving node kinds, arities,
nesting, literals, type annotations and locations untouched.  Applying them
with a constant function erases the identifier payload entirely, which is
how "same tree shape" is stated. -/

mutual

/-- Map the identifier payload of a pattern. -/
def mapPattern {α β : Type} (f : α → β) : Pattern α → Pattern β
  | .NumberPattern i => .NumberPattern i
  | .ConstructorPattern s ps => .ConstructorPattern (f s) (mapPatterns f ps)
  | .IdentifierPattern s => .IdentifierPattern (f s)
  | .WildCardPattern => .WildCardPattern

/-- Map the identifier payload of each pattern in a list. -/
def mapPatterns {α β : Type} (f : α → β) : List (Pattern α) → List (Pattern β)
  | [] => []
  | p :: ps => mapPattern f p :: mapPatterns f ps

end

mutual

/-- Map the identifier payload of a typed expression, keeping the type
annotation and location. -/
def mapTE {α β : Type} (f : α → β) : TypedExpr α → TypedExpr β
  | .mk e typ location => .mk (mapE f e) typ location

/-- Map the identifier payload of an expression. -/
def mapE {α β : Type} (f : α → β) : Expr α → Expr β
  | .Number n => .Number n
  | .Rational q => .Rational q
  | .StringE s => .StringE s
  | .CharE c => .CharE c
  | .Identifier i => .Identifier (f i)
  | .Apply func arg => .Apply (mapTE f func) (mapTE f arg)
  | .Lambda arg body => .Lambda (f arg) (mapTE f body)
  | .Let bindings body => .Let (mapBindings f bindings) (mapTE f body)
  | .Case scrutinee alts => .Case (mapTE f scrutinee) (mapAlts f alts)
  | .Do bindings last => .Do (mapDoBindings f bindings) (mapTE f last)

/-- Map the identifier payload of each binding in a list, keeping type
declarations and arities. -/
def mapBindings {α β : Type} (f : α → β) : List (Binding α) → List (Binding β)
  | [] => []
  | .mk name e typeDecl arity :: rest =>
    .mk (f name) (mapTE f e) typeDecl arity :: mapBindings f rest

/-- Map the identifier payload of each alternative in a list, keeping
pattern locations. -/
def mapAlts {α β : Type} (f : α → β) : List (Alternative α) → List (Alternative β)
  | [] => []
  | .mk (Located.mk loc pattern) e :: rest =>
    .mk (Located.mk loc (mapPattern f pattern)) (mapTE f e) :: mapAlts f rest

/-- Map the identifier payload of each do-statement in a list. -/
def mapDoBindings {α β : Type} (f : α → β) : List (DoBinding α) → List (DoBinding β)
  | [] => []
  | .DoExpr e :: rest => .DoExpr (mapTE f e) :: mapDoBindings f rest
  | .DoLet bs :: rest => .DoLet (mapBindings f bs) :: mapDoBindings f rest
  | .DoBind (Located.mk loc node) e :: rest =>
    .DoBind (Located.mk loc (mapPattern f node)) (mapTE f e) :: mapDoBindings f rest

end

/-- The shape of a typed expression: the tree with its identifier payload
erased (node kinds, arities, nesting, literals, type annotations and
locations all remain). -/
def shapeTE {α : Type} (t : TypedExpr α) : TypedExpr Unit :=
  mapTE (fun _ => ()) t

mutual

/-- All uids occurring anywhere in a renamed pattern. -/
def uidsPattern : Pattern Name → List Nat
  | .NumberPattern _ => []
  | .ConstructorPattern s ps => s.uid :: uidsPatterns ps
  | .IdentifierPattern s => [s.uid]
  | .WildCardPattern => []

/-- All uids occurring in a list of renamed patterns. -/
def uidsPatterns : List (Pattern Name) → List Nat
  | [] => []
  | p :: ps => uidsPattern p ++ uidsPatterns ps

end

mutual

/-- All uids occurring anywhere in a renamed typed expression. -/
def uidsTE : TypedExpr Name → List Nat
  | .mk e _ _ => uidsE e

/-- All uids occurring anywhere in a renamed expression. -/
def uidsE : Expr Name → List Nat
  | .Number _ => []
  | .Rational _ => []
  | .StringE _ => []
  | .CharE _ => []
  | .Identifier i => [i.uid]
  | .Apply func arg => uidsTE func ++ uidsTE arg
  | .Lambda arg body => arg.uid :: uidsTE body
  | .Let bindings body => uidsBindings bindings ++ uidsTE body
  | .Case scrutinee alts => uidsTE scrutinee ++ uidsAlts alts
  | .Do bindings last => uidsDoBindings bindings ++ uidsTE last

/-- All uids occurring in a list of renamed bindings. -/
def uidsBindings : List (Binding Name) → List Nat
  | [] => []
  | .mk name e _ _ :: rest => name.uid :: (uidsTE e ++ uidsBindings rest)

/-- All uids occurring in a list of renamed alternatives. -/
def uidsAlts : List (Alternative Name) → List Nat
  | [] => []
  | .mk (Located.mk _ pattern) e :: rest =>
    uidsPattern pattern ++ uidsTE e ++ uidsAlts rest

/-- All uids occurring in a list of renamed do-statements. -/
def uidsDoBindings : List (DoBinding Name) → List Nat
  | [] => []
  | .DoExpr e :: rest => uidsTE e ++ uidsDoBindings rest
  | .DoLet bs :: rest => uidsBindings bs ++ uidsDoBindings rest
  | .DoBind (Located.mk _ node) e :: rest =>
    uidsPattern node ++ uidsTE e ++ uidsDoBindings rest

end

/-! ### Allocator and scope invariants -/

/-- The allocator's evolution across one renaming step: the counter never
decreases, and the uids issued in the step are exactly the consecutive
values `unique_id + 1, …, unique_id'` (appended to the ghost trace in that
order). -/
def traceStep (r r' : Renamer) : Prop :=
  r.unique_id ≤ r'.unique_id ∧
  r'.issued = r.issued ++ List.range' (r.unique_id + 1) (r'.unique_id - r.unique_id)

/-- The scoped map after a renaming step extends the one before it: the
outer frames are untouched and the innermost frame has only gained
entries (in front). -/
def scopeExtends (m m' : ScopedMap) : Prop :=
  ∀ f fs, m.frames = f :: fs → ∃ g, m'.frames = (g ++ f) :: fs

/-- The combined step invariant of the renamer state. -/
def StateStep (r r' : Renamer) : Prop :=
  scopeExtends r.uniques r'.uniques ∧ traceStep r r'

theorem traceStep_refl (r : Renamer) : traceStep r r := by
  refine ⟨le_refl _, ?_⟩
  simp [Nat.sub_self]

theorem traceStep_of_eq {r r' : Renamer} (h1 : r'.unique_id = r.unique_id)
    (h2 : r'.issued = r.issued) : traceStep r r' := by
  refine ⟨le_of_eq h1.symm, ?_⟩
  simp [h1, h2, Nat.sub_self]

theorem traceStep_trans {r0 r1 r2 : Renamer} (h1 : traceStep r0 r1)
    (h2 : traceStep r1 r2) : traceStep r0 r2 := by
  obtain ⟨le1, e1⟩ := h1
  obtain ⟨le2, e2⟩ := h2
  refine ⟨le_trans le1 le2, ?_⟩
  have h3 : (r0.unique_id + 1) + 1 * (r1.unique_id - r0.unique_id) = r1.unique_id + 1 := by
    omega
  have h4 : r2.unique_id - r1.unique_id + (r1.unique_id - r0.unique_id) =
      r2.unique_id - r0.unique_id := by omega
  rw [e2, e1, List.append_assoc, ← h4, ← h3, List.range'_append]

theorem scopeExtends_refl (m : ScopedMap) : scopeExtends m m := by
  intro f fs h
  exact ⟨[], by simp [h]⟩

theorem scopeExtends_of_eq {m m' : ScopedMap} (h : m' = m) : scopeExtends m m' := by
  subst h; exact scopeExtends_refl _

theorem scopeExtends_trans {m0 m1 m2 : ScopedMap} (h1 : scopeExtends m0 m1)
    (h2 : scopeExtends m1 m2) : scopeExtends m0 m2 := by
  intro f fs h
  obtain ⟨g1, hg1⟩ := h1 f fs h
  obtain ⟨g2, hg2⟩ := h2 (g1 ++ f) fs hg1
  exact ⟨g2 ++ g1, by rw [hg2, List.append_assoc]⟩

theorem StateStep_refl (r : Renamer) : StateStep r r :=
  ⟨scopeExtends_refl _, traceStep_refl _⟩

theorem StateStep_trans {r0 r1 r2 : Renamer} (h1 : StateStep r0 r1)
    (h2 : StateStep r1 r2) : StateStep r0 r2 :=
  ⟨scopeExtends_trans h1.1 h2.1, traceStep_trans h1.2 h2.2⟩

theorem make_unique_fst (r : Renamer) (s : InternedStr) :
    (r.make_unique s).1 = { name := s, uid := r.unique_id + 1 } := rfl

theorem make_unique_unique_id (r : Renamer) (s : InternedStr) :
    (r.make_unique s).2.unique_id = r.unique_id + 1 := rfl

theorem make_unique_issued (r : Renamer) (s : InternedStr) :
    (r.make_unique s).2.issued = r.issued ++ [r.unique_id + 1] := rfl

theorem make_unique_uniques (r : Renamer) (s : InternedStr) :
    (r.make_unique s).2.uniques =
      r.uniques.insert s { name := s, uid := r.unique_id + 1 } := rfl

theorem insert_scopeExtends (m : ScopedMap) (k : InternedStr) (v : Name) :
    scopeExtends m (m.insert k v) := by
  intro f fs h
  refine ⟨[(k, v)], ?_⟩
  simp [ScopedMap.insert, h]

theorem make_unique_StateStep (r : Renamer) (s : InternedStr) :
    StateStep r (r.make_unique s).2 := by
  refine ⟨insert_scopeExtends _ _ _, le_of_lt (Nat.lt_succ_self _), ?_⟩
  simp [make_unique_issued, make_unique_unique_id, List.range'_one]

theorem enter_scope_unique_id (r : Renamer) : r.enter_scope.unique_id = r.unique_id := rfl

theorem enter_scope_issued (r : Renamer) : r.enter_scope.issued = r.issued := rfl

theorem exit_scope_unique_id (r : Renamer) : r.exit_scope.unique_id = r.unique_id := rfl

theorem exit_scope_issued (r : Renamer) : r.exit_scope.issued = r.issued := rfl

theorem enter_scope_frames (r : Renamer) :
    r.enter_scope.uniques.frames = [] :: r.uniques.frames := rfl

/-- Exiting a scope entered just before a step that satisfies the scope
extension invariant restores the scoped map exactly. -/
theorem scoped_restore {r r1 : Renamer} (h : StateStep r.enter_scope r1) :
    r1.exit_scope.uniques = r.uniques := by
  obtain ⟨g, hg⟩ := h.1 [] r.uniques.frames (enter_scope_frames r)
  show (⟨r1.uniques.frames.tail⟩ : ScopedMap) = r.uniques
  rw [hg]
  simp

/-- Looking up in a concatenation of frame fragments: the front fragment
wins when it has the key. -/
theorem frameLookup_append (g f : List (InternedStr × Name)) (k : InternedStr) :
    frameLookup (g ++ f) k =
      match frameLookup g k with
      | some v => some v
      | none => frameLookup f k := by
  induction g with
  | nil => simp [frameLookup]
  | cons kv rest ih =>
    obtain ⟨k', v⟩ := kv
    by_cases h : k' = k <;> simp [frameLookup, h, ih]

/-- A key that resolves in a scoped map still resolves after any extension
of the map. -/
theorem find_isSome_of_scopeExtends {m m' : ScopedMap} (h : scopeExtends m m')
    {k : InternedStr} (hk : (m.find k).isSome) : (m'.find k).isSome := by
  match hf : m.frames with
  | [] => simp [ScopedMap.find, hf, findInFrames] at hk
  | f :: fs =>
    obtain ⟨g, hg⟩ := h f fs hf
    rw [ScopedMap.find, hf, findInFrames] at hk
    rw [ScopedMap.find, hg, findInFrames, frameLookup_append]
    match h2 : frameLookup g k with
    | some v => simp [h2]
    | none =>
      match h1 : frameLookup f k with
      | some v => simp [h2, h1]
      | none =>
        rw [h1] at hk
        simp [h2, h1]
        exact hk

theorem find_isSome_of_StateStep {r r' : Renamer} (h : StateStep r r')
    {k : InternedStr} (hk : (r.uniques.find k).isSome) :
    (r'.uniques.find k).isSome :=
  find_isSome_of_scopeExtends h.1 hk

/-- After `make_unique s`, the symbol `s` resolves (to the just-issued
name). -/
theorem make_unique_find_self (r : Renamer) (s : InternedStr) :
    (r.make_unique s).2.uniques.find s =
      some { name := s, uid := r.unique_id + 1 } := by
  rw [make_unique_uniques]
  obtain ⟨frames⟩ := r.uniques
  match frames with
  | [] => simp [ScopedMap.insert, ScopedMap.find, findInFrames, frameLookup]
  | f :: fs => simp [ScopedMap.insert, ScopedMap.find, findInFrames, frameLookup]

/-- Phase one of `rename_bindings` only extends the state. -/
theorem registerBindings_StateStep (bs : List (Binding InternedStr)) :
    ∀ r : Renamer, StateStep r (registerBindings r bs) := by
  induction bs with
  | nil => intro r; exact StateStep_refl r
  | cons b rest ih =>
    intro r
    obtain ⟨name, e, td, a⟩ := b
    exact StateStep_trans (make_unique_StateStep r name)
      (ih (r.make_unique name).2)

/-- After phase one of `rename_bindings`, every binding's name of the group
resolves in the scoped map. -/
theorem registerBindings_find (bs : List (Binding InternedStr)) :
    ∀ r : Renamer, ∀ b ∈ bs,
      (((registerBindings r bs).uniques.find b.name)).isSome := by
  induction bs with
  | nil => intro r b hb; simp at hb
  | cons hd rest ih =>
    intro r b hb
    obtain ⟨name, e, td, a⟩ := hd
    rcases List.mem_cons.mp hb with h | h
    · subst h
      show ((registerBindings (r.make_unique name).2 rest).uniques.find name).isSome
      refine find_isSome_of_StateStep (registerBindings_StateStep rest _) ?_
      rw [make_unique_find_self]
      rfl
    · exact ih (r.make_unique name).2 b h

/-! ### The master invariant theorem: totality, scope extension, allocator
trace, and shape preservation of every renaming function -/

def PatOK (r : Renamer) (p : Pattern InternedStr) : Prop :=
  StateStep r (rename_pattern r p).2 ∧
  mapPattern (fun _ => ()) (rename_pattern r p).1 = mapPattern (fun _ => ()) p

def PatsOK (r : Renamer) (ps : List (Pattern InternedStr)) : Prop :=
  StateStep r (renamePatterns r ps).2 ∧
  mapPatterns (fun _ => ()) (renamePatterns r ps).1 = mapPatterns (fun _ => ()) ps

theorem rename_pattern_ok : ∀ (r : Renamer) (p : Pattern InternedStr), PatOK r p := by
  refine fun r p => rename_pattern.induct PatOK PatsOK ?_ ?_ ?_ ?_ ?_ ?_ r p
  · intro r i
    exact ⟨StateStep_refl r, rfl⟩
  · intro r s ps ps' r' h ih
    obtain ⟨ih1, ih2⟩ := ih
    rw [h] at ih1 ih2
    refine ⟨?_, ?_⟩
    · simp [rename_pattern, h]
      exact ih1
    · simp [rename_pattern, h, mapPattern]
      exact ih2
  · intro r s n r2 h
    refine ⟨?_, ?_⟩
    · simp [rename_pattern, h]
      have := make_unique_StateStep r s
      rw [h] at this
      exact this
    · simp [rename_pattern, h, mapPattern]
  · intro r
    exact ⟨StateStep_refl r, rfl⟩
  · intro r
    exact ⟨StateStep_refl r, rfl⟩
  · intro r p ps pattern' r2 h1 ps' r' h2 ih1 ih2
    obtain ⟨iha, ihb⟩ := ih1
    obtain ⟨ihc, ihd⟩ := ih2
    rw [h1] at iha ihb
    rw [h2] at ihc ihd
    refine ⟨?_, ?_⟩
    · simp [renamePatterns, h1, h2]
      exact StateStep_trans iha ihc
    · simp [renamePatterns, h1, h2, mapPatterns]
      exact ⟨ihb, ihd⟩


def RenameTEOK (r : Renamer) (t : TypedExpr InternedStr) : Prop :=
  ∃ t' r', rename r t = some (t', r') ∧ StateStep r r' ∧
    mapTE (fun _ => ()) t' = mapTE (fun _ => ()) t

def RenameEOK (r : Renamer) (e : Expr InternedStr) : Prop :=
  ∃ e' r', renameE r e = some (e', r') ∧ StateStep r r' ∧
    mapE (fun _ => ()) e' = mapE (fun _ => ()) e

def RenameDosOK (r : Renamer) (ds : List (DoBinding InternedStr)) : Prop :=
  ∃ ds' r', renameDoBindings r ds = some (ds', r') ∧ StateStep r r' ∧
    mapDoBindings (fun _ => ()) ds' = mapDoBindings (fun _ => ()) ds

def RenameBsOK (r : Renamer) (bs : List (Binding InternedStr)) : Prop :=
  (∀ b ∈ bs, ((r.uniques.find b.name)).isSome) →
  ∃ bs' r', renameBindingsRest r bs = some (bs', r') ∧ StateStep r r' ∧
    mapBindings (fun _ => ()) bs' = mapBindings (fun _ => ()) bs

def RenameAltsOK (r : Renamer) (alts : List (Alternative InternedStr)) : Prop :=
  ∃ alts' r', renameAlts r alts = some (alts', r') ∧ r'.uniques = r.uniques ∧
    traceStep r r' ∧ mapAlts (fun _ => ()) alts' = mapAlts (fun _ => ()) alts

theorem pair_eq_of_some {β : Type} {a b : β} {x y : Renamer}
    (h : (some (a, x) : Option (β × Renamer)) = some (b, y)) : a = b ∧ x = y := by
  simpa using h

theorem scoped_StateStep {r r1 : Renamer} (h : StateStep r.enter_scope r1) :
    StateStep r r1.exit_scope :=
  ⟨scopeExtends_of_eq (scoped_restore h),
   traceStep_trans (traceStep_of_eq rfl rfl)
     (traceStep_trans h.2 (traceStep_of_eq rfl rfl))⟩

set_option maxHeartbeats 1600000 in
theorem renameT : ∀ (r : Renamer) (t : TypedExpr InternedStr), RenameTEOK r t := by
  apply rename.induct RenameTEOK RenameEOK RenameDosOK RenameBsOK RenameAltsOK
  case case1 => intro r n; exact ⟨.Number n, r, rfl, StateStep_refl r, rfl⟩
  case case2 => intro r q; exact ⟨.Rational q, r, rfl, StateStep_refl r, rfl⟩
  case case3 => intro r s; exact ⟨.StringE s, r, rfl, StateStep_refl r, rfl⟩
  case case4 => intro r c; exact ⟨.CharE c, r, rfl, StateStep_refl r, rfl⟩
  case case5 => intro r i; exact ⟨.Identifier (r.get_name i), r, rfl, StateStep_refl r, rfl⟩
  case case6 =>
    intro r func arg hnone ih
    obtain ⟨t0, r0, h, -, -⟩ := ih
    rw [h] at hnone; simp at hnone
  case case7 =>
    intro r func arg f0 r1 hfunc hnone ih1 ih2
    obtain ⟨t0, r0, h, -, -⟩ := ih2
    rw [h] at hnone; simp at hnone
  case case8 =>
    intro r func arg f0 r1 hfunc a0 r2 harg ih1 ih2
    obtain ⟨fr, rf, hf, sf, mf⟩ := ih1
    obtain ⟨rfl, rfl⟩ := pair_eq_of_some (hf.symm.trans hfunc)
    obtain ⟨ar, ra, ha, sa, ma⟩ := ih2
    obtain ⟨rfl, rfl⟩ := pair_eq_of_some (ha.symm.trans harg)
    refine ⟨.Apply fr ar, ra, ?_, StateStep_trans sf sa, ?_⟩
    · simp [renameE, hf, ha]
    · simp [mapE, mf, ma]
  case case9 =>
    intro r arg body r1 n r2 hmu hnone ih
    obtain ⟨t0, r0, h, -, -⟩ := ih
    rw [h] at hnone; simp at hnone
  case case10 =>
    intro r arg body r1 n r2 hmu b0 r3 hbody ih
    rw [show r1 = r.enter_scope from rfl] at hmu
    obtain ⟨body1, rb, hb, sb, mb⟩ := ih
    obtain ⟨rfl, rfl⟩ := pair_eq_of_some (hb.symm.trans hbody)
    have smu : StateStep r.enter_scope r2 := by
      have h2 := make_unique_StateStep r.enter_scope arg
      rwa [show (r.enter_scope.make_unique arg).2 = r2 from by rw [hmu]] at h2
    have hscope : StateStep r.enter_scope rb := StateStep_trans smu sb
    refine ⟨.Lambda n body1, rb.exit_scope, ?_, scoped_StateStep hscope, ?_⟩
    · simp [renameE, hmu, hb]
    · simp [mapE, mb]
  case case11 =>
    intro r bindings body r1 hnone ih
    rw [show r1 = registerBindings r.enter_scope bindings from rfl] at hnone ih
    obtain ⟨bs0, r0, h, -, -⟩ := ih (registerBindings_find bindings r.enter_scope)
    rw [h] at hnone; simp at hnone
  case case12 =>
    intro r bindings body r1 bs0 r2 hbs hnone ihbs ihbody
    obtain ⟨t0, r0, h, -, -⟩ := ihbody
    rw [h] at hnone; simp at hnone
  case case13 =>
    intro r bindings body r1 bs0 r2 hbs b0 r3 hbody ihbs ihbody
    rw [show r1 = registerBindings r.enter_scope bindings from rfl] at hbs ihbs
    obtain ⟨bs1, rx, hb, sbs, mbs⟩ := ihbs (registerBindings_find bindings r.enter_scope)
    obtain ⟨rfl, rfl⟩ := pair_eq_of_some (hb.symm.trans hbs)
    obtain ⟨body1, rb, hbd, sbd, mbd⟩ := ihbody
    obtain ⟨rfl, rfl⟩ := pair_eq_of_some (hbd.symm.trans hbody)
    have hscope : StateStep r.enter_scope rb :=
      StateStep_trans (registerBindings_StateStep bindings r.enter_scope)
        (StateStep_trans sbs sbd)
    refine ⟨.Let bs1 body1, rb.exit_scope, ?_, scoped_StateStep hscope, ?_⟩
    · simp [renameE, hb, hbd]
    · simp [mapE, mbs, mbd]
  case case14 =>
    intro r scrutinee alts hnone ih
    obtain ⟨alts0, r0, h, -, -, -⟩ := ih
    rw [h] at hnone; simp at hnone
  case case15 =>
    intro r scrutinee alts alts0 r1 halts hnone ihalts ihscrut
    obtain ⟨t0, r0, h, -, -⟩ := ihscrut
    rw [h] at hnone; simp at hnone
  case case16 =>
    intro r scrutinee alts alts0 r1 halts s0 r2 hscrut ihalts ihscrut
    obtain ⟨alts1, ra, ha, hequ, htr, malts⟩ := ihalts
    obtain ⟨rfl, rfl⟩ := pair_eq_of_some (ha.symm.trans halts)
    obtain ⟨scrut1, rs, hs, ss, ms⟩ := ihscrut
    obtain ⟨rfl, rfl⟩ := pair_eq_of_some (hs.symm.trans hscrut)
    refine ⟨.Case scrut1 alts1, rs, ?_, ?_, ?_⟩
    · simp [renameE, ha, hs]
    · exact StateStep_trans ⟨scopeExtends_of_eq hequ, htr⟩ ss
    · simp [mapE, malts, ms]
  case case17 =>
    intro r bindings last hnone ih
    obtain ⟨ds0, r0, h, -, -⟩ := ih
    rw [h] at hnone; simp at hnone
  case case18 =>
    intro r bindings last ds0 r1 hds hnone ihds ihlast
    obtain ⟨t0, r0, h, -, -⟩ := ihlast
    rw [h] at hnone; simp at hnone
  case case19 =>
    intro r bindings last ds0 r1 hds l0 r2 hlast ihds ihlast
    obtain ⟨ds1, rd, hd, sd, md⟩ := ihds
    obtain ⟨rfl, rfl⟩ := pair_eq_of_some (hd.symm.trans hds)
    obtain ⟨last1, rl, hl, sl, ml⟩ := ihlast
    obtain ⟨rfl, rfl⟩ := pair_eq_of_some (hl.symm.trans hlast)
    refine ⟨.Do ds1 last1, rl, ?_, StateStep_trans sd sl, ?_⟩
    · simp [renameE, hd, hl]
    · simp [mapE, md, ml]
  case case20 =>
    intro r e typ location hnone ih
    obtain ⟨e0, r0, h, -, -⟩ := ih
    rw [h] at hnone; simp at hnone
  case case21 =>
    intro r e typ location e9 r9 he ih
    obtain ⟨e1, r1, h, s, m⟩ := ih
    refine ⟨.mk e1 typ location, r1, ?_, s, ?_⟩
    · simp [rename, h]
    · simp [mapTE, m]
  case case22 => intro r _; exact ⟨[], r, rfl, StateStep_refl r, rfl⟩
  case case23 =>
    intro r name expression typeDecl arity rest hfind hpre
    have h := hpre _ (List.mem_cons_self _ _)
    simp only [Binding.name] at h
    rw [hfind] at h; simp at h
  case case24 =>
    intro r name expression typeDecl arity rest n hfind hnone ih hpre
    obtain ⟨t0, r0, h, -, -⟩ := ih
    rw [h] at hnone; simp at hnone
  case case25 =>
    intro r name expression typeDecl arity rest n hfind e9 r2 hexp hrestnone ihe ihrest hpre
    obtain ⟨e1, re, he, se, me⟩ := ihe
    obtain ⟨rfl, rfl⟩ := pair_eq_of_some (he.symm.trans hexp)
    have hpre2 : ∀ b ∈ rest, ((re.uniques.find b.name)).isSome := fun b hb =>
      find_isSome_of_StateStep se (hpre b (List.mem_cons_of_mem _ hb))
    obtain ⟨rest1, rr, hr, -, -⟩ := ihrest hpre2
    rw [hr] at hrestnone; simp at hrestnone
  case case26 =>
    intro r name expression typeDecl arity rest n hfind e9 r2 hexp rest9 r3 hrest ihe ihrest hpre
    obtain ⟨e1, re, he, se, me⟩ := ihe
    obtain ⟨rfl, rfl⟩ := pair_eq_of_some (he.symm.trans hexp)
    have hpre2 : ∀ b ∈ rest, ((re.uniques.find b.name)).isSome := fun b hb =>
      find_isSome_of_StateStep se (hpre b (List.mem_cons_of_mem _ hb))
    obtain ⟨rest1, rr, hr, sr, mr⟩ := ihrest hpre2
    obtain ⟨rfl, rfl⟩ := pair_eq_of_some (hr.symm.trans hrest)
    refine ⟨.mk n e1 typeDecl arity :: rest1, rr, ?_, StateStep_trans se sr, ?_⟩
    · simp [renameBindingsRest, hfind, he, hr]
    · simp [mapBindings, me, mr]
  case case27 => intro r; exact ⟨[], r, rfl, rfl, traceStep_refl r, rfl⟩
  case case28 =>
    intro r loc pattern expression rest r1 pattern1 r2 hpat hnone ih
    obtain ⟨t0, r0, h, -, -⟩ := ih
    rw [h] at hnone; simp at hnone
  case case29 =>
    intro r loc pattern expression rest r1 pattern1 r2 hpat e9 r3 hexp r4 hnone ihe ihrest
    obtain ⟨alts0, r0, h, -, -, -⟩ := ihrest
    rw [h] at hnone; simp at hnone
  case case30 =>
    intro r loc pattern expression rest r1 pattern1 r2 hpat e9 r3 hexp r4 alts9 r5 hrest ihe ihrest
    rw [show r1 = r.enter_scope from rfl] at hpat
    rw [show r4 = r3.exit_scope from rfl] at hrest ihrest
    obtain ⟨spat, mpat⟩ := rename_pattern_ok r.enter_scope pattern
    rw [hpat] at spat mpat
    obtain ⟨e1, re, he, se, me⟩ := ihe
    obtain ⟨rfl, rfl⟩ := pair_eq_of_some (he.symm.trans hexp)
    have hscope : StateStep r.enter_scope re := StateStep_trans spat se
    obtain ⟨rest1, rr, hr, hru, hrt, mrest⟩ := ihrest
    obtain ⟨rfl, rfl⟩ := pair_eq_of_some (hr.symm.trans hrest)
    refine ⟨.mk (Located.mk loc pattern1) e1 :: rest1, rr, ?_, ?_, ?_, ?_⟩
    · simp [renameAlts, hpat, he, hr]
    · rw [hru, show (re.exit_scope).uniques = r.uniques from scoped_restore hscope]
    · exact traceStep_trans (scoped_StateStep hscope).2 hrt
    · simp [mapAlts, mpat, me, mrest]
  case case31 => intro r; exact ⟨[], r, rfl, StateStep_refl r, rfl⟩
  case case32 =>
    intro r e rest hnone ih
    obtain ⟨t0, r0, h, -, -⟩ := ih
    rw [h] at hnone; simp at hnone
  case case33 =>
    intro r e rest e9 r2 he9 hnone ihe ihrest
    obtain ⟨ds0, r0, h, -, -⟩ := ihrest
    rw [h] at hnone; simp at hnone
  case case34 =>
    intro r e rest e9 r2 he9 rest9 r3 hrest ihe ihrest
    obtain ⟨e1, re, he, se, me⟩ := ihe
    obtain ⟨rfl, rfl⟩ := pair_eq_of_some (he.symm.trans he9)
    obtain ⟨rest1, rr, hr, sr, mr⟩ := ihrest
    obtain ⟨rfl, rfl⟩ := pair_eq_of_some (hr.symm.trans hrest)
    refine ⟨.DoExpr e1 :: rest1, rr, ?_, StateStep_trans se sr, ?_⟩
    · simp [renameDoBindings, he, hr]
    · simp [mapDoBindings, me, mr]
  case case35 =>
    intro r bs rest r1 hnone ih
    rw [show r1 = registerBindings r bs from rfl] at hnone ih
    obtain ⟨bs0, r0, h, -, -⟩ := ih (registerBindings_find bs r)
    rw [h] at hnone; simp at hnone
  case case36 =>
    intro r bs rest r1 bs9 r2 hbs hnone ihbs ihrest
    obtain ⟨ds0, r0, h, -, -⟩ := ihrest
    rw [h] at hnone; simp at hnone
  case case37 =>
    intro r bs rest r1 bs9 r2 hbs rest9 r3 hrest ihbs ihrest
    rw [show r1 = registerBindings r bs from rfl] at hbs ihbs
    obtain ⟨bs1, rb, hb, sb, mb⟩ := ihbs (registerBindings_find bs r)
    obtain ⟨rfl, rfl⟩ := pair_eq_of_some (hb.symm.trans hbs)
    obtain ⟨rest1, rr, hr, sr, mr⟩ := ihrest
    obtain ⟨rfl, rfl⟩ := pair_eq_of_some (hr.symm.trans hrest)
    refine ⟨.DoLet bs1 :: rest1, rr, ?_,
      StateStep_trans (registerBindings_StateStep bs r) (StateStep_trans sb sr), ?_⟩
    · simp [renameDoBindings, hb, hr]
    · simp [mapDoBindings, mb, mr]
  case case38 =>
    intro r location node e rest pattern1 r2 hpat hnone ih
    obtain ⟨t0, r0, h, -, -⟩ := ih
    rw [h] at hnone; simp at hnone
  case case39 =>
    intro r location node e rest pattern1 r2 hpat e9 r3 hexp hnone ihe ihrest
    obtain ⟨ds0, r0, h, -, -⟩ := ihrest
    rw [h] at hnone; simp at hnone
  case case40 =>
    intro r location node e rest pattern1 r2 hpat e9 r3 hexp rest9 r4 hrest ihe ihrest
    obtain ⟨spat, mpat⟩ := rename_pattern_ok r node
    rw [hpat] at spat mpat
    obtain ⟨e1, re, he, se, me⟩ := ihe
    obtain ⟨rfl, rfl⟩ := pair_eq_of_some (he.symm.trans hexp)
    obtain ⟨rest1, rr, hr, sr, mr⟩ := ihrest
    obtain ⟨rfl, rfl⟩ := pair_eq_of_some (hr.symm.trans hrest)
    refine ⟨.DoBind (Located.mk location pattern1) e1 :: rest1, rr, ?_,
      StateStep_trans spat (StateStep_trans se sr), ?_⟩
    · simp [renameDoBindings, hpat, he, hr]
    · simp [mapDoBindings, mpat, me, mr]

/-! ### Totality of the list-level renaming loops and the module pass -/

theorem renameBindingsRestT : ∀ (r : Renamer) (bs : List (Binding InternedStr)), RenameBsOK r bs := by
  intro r bs
  induction bs generalizing r with
  | nil => intro _; exact ⟨[], r, rfl, StateStep_refl r, rfl⟩
  | cons b rest ih =>
    obtain ⟨name, expression, typeDecl, arity⟩ := b
    intro hpre
    have hfind := hpre _ (List.mem_cons_self _ _)
    simp only [Binding.name] at hfind
    match hf : r.uniques.find name with
    | none => rw [hf] at hfind; simp at hfind
    | some n =>
      obtain ⟨e1, re, he, se, me⟩ := renameT r expression
      have hpre2 : ∀ b ∈ rest, ((re.uniques.find b.name)).isSome := fun b hb =>
        find_isSome_of_StateStep se (hpre b (List.mem_cons_of_mem _ hb))
      obtain ⟨rest1, rr, hr, sr, mr⟩ := ih re hpre2
      refine ⟨.mk n e1 typeDecl arity :: rest1, rr, ?_, StateStep_trans se sr, ?_⟩
      · simp [renameBindingsRest, hf, he, hr]
      · simp [mapBindings, me, mr]

theorem rename_bindingsT : ∀ (r : Renamer) (bs : List (Binding InternedStr)),
    ∃ bs' r', rename_bindings r bs = some (bs', r') ∧ StateStep r r' := by
  intro r bs
  obtain ⟨bs1, r1, h, s, -⟩ :=
    renameBindingsRestT (registerBindings r bs) bs (registerBindings_find bs r)
  exact ⟨bs1, r1, h, StateStep_trans (registerBindings_StateStep bs r) s⟩

theorem renameAltsT : ∀ (r : Renamer) (alts : List (Alternative InternedStr)), RenameAltsOK r alts := by
  intro r alts
  induction alts generalizing r with
  | nil => exact ⟨[], r, rfl, rfl, traceStep_refl r, rfl⟩
  | cons a rest ih =>
    obtain ⟨⟨loc, pattern⟩, expression⟩ := a
    rcases hpat : rename_pattern r.enter_scope pattern with ⟨pattern1, r2⟩
    obtain ⟨spat, mpat⟩ := rename_pattern_ok r.enter_scope pattern
    rw [hpat] at spat mpat
    obtain ⟨e1, re, he, se, me⟩ := renameT r2 expression
    have hscope : StateStep r.enter_scope re := StateStep_trans spat se
    obtain ⟨rest1, rr, hr, hru, hrt, mrest⟩ := ih re.exit_scope
    refine ⟨.mk (Located.mk loc pattern1) e1 :: rest1, rr, ?_, ?_, ?_, ?_⟩
    · simp [renameAlts, hpat, he, hr]
    · rw [hru, scoped_restore hscope]
    · exact traceStep_trans (scoped_StateStep hscope).2 hrt
    · simp [mapAlts, mpat, me, mrest]

theorem renameDoBindingsT : ∀ (r : Renamer) (ds : List (DoBinding InternedStr)), RenameDosOK r ds := by
  intro r ds
  induction ds generalizing r with
  | nil => exact ⟨[], r, rfl, StateStep_refl r, rfl⟩
  | cons d rest ih =>
    match d with
    | .DoExpr e =>
      obtain ⟨e1, re, he, se, me⟩ := renameT r e
      obtain ⟨rest1, rr, hr, sr, mr⟩ := ih re
      refine ⟨.DoExpr e1 :: rest1, rr, ?_, StateStep_trans se sr, ?_⟩
      · simp [renameDoBindings, he, hr]
      · simp [mapDoBindings, me, mr]
    | .DoLet bs =>
      obtain ⟨bs1, rb, hb, sb, mb⟩ :=
        renameBindingsRestT (registerBindings r bs) bs (registerBindings_find bs r)
      obtain ⟨rest1, rr, hr, sr, mr⟩ := ih rb
      refine ⟨.DoLet bs1 :: rest1, rr, ?_,
        StateStep_trans (registerBindings_StateStep bs r) (StateStep_trans sb sr), ?_⟩
      · simp [renameDoBindings, hb, hr]
      · simp [mapDoBindings, mb, mr]
    | .DoBind ⟨location, node⟩ e =>
      rcases hpat : rename_pattern r node with ⟨pattern1, r2⟩
      obtain ⟨spat, mpat⟩ := rename_pattern_ok r node
      rw [hpat] at spat mpat
      obtain ⟨e1, re, he, se, me⟩ := renameT r2 e
      obtain ⟨rest1, rr, hr, sr, mr⟩ := ih re
      refine ⟨.DoBind (Located.mk location pattern1) e1 :: rest1, rr, ?_,
        StateStep_trans spat (StateStep_trans se sr), ?_⟩
      · simp [renameDoBindings, hpat, he, hr]
      · simp [mapDoBindings, mpat, me, mr]

theorem rename_bindingT (r : Renamer) (b : Binding InternedStr) :
    ∃ b' r', rename_binding r b = some (b', r') ∧ StateStep r r' ∧
      b'.name = { name := b.name, uid := 0 } := by
  obtain ⟨name, expression, typeDecl, arity⟩ := b
  obtain ⟨e1, re, he, se, me⟩ := renameT r expression
  exact ⟨.mk { name := name, uid := 0 } e1 typeDecl arity, re,
    by simp [rename_binding, he], se, rfl⟩

theorem renameBindingListT : ∀ (bs : List (Binding InternedStr)) (r : Renamer),
    ∃ bs' r', renameBindingList r bs = some (bs', r') ∧ StateStep r r' := by
  intro bs
  induction bs with
  | nil => intro r; exact ⟨[], r, rfl, StateStep_refl r⟩
  | cons b rest ih =>
    intro r
    obtain ⟨b1, rb, hb, sb, -⟩ := rename_bindingT r b
    obtain ⟨rest1, rr, hr, sr⟩ := ih rb
    exact ⟨b1 :: rest1, rr, by simp [renameBindingList, hb, hr], StateStep_trans sb sr⟩

theorem renameInstanceListT : ∀ (insts : List (Instance InternedStr)) (r : Renamer),
    ∃ insts' r', renameInstanceList r insts = some (insts', r') ∧ StateStep r r' := by
  intro insts
  induction insts with
  | nil => intro r; exact ⟨[], r, rfl, StateStep_refl r⟩
  | cons i rest ih =>
    intro r
    obtain ⟨bindings, constraints, typ, classname⟩ := i
    obtain ⟨bs1, rb, hb, sb⟩ := renameBindingListT bindings r
    obtain ⟨rest1, rr, hr, sr⟩ := ih rb
    exact ⟨⟨bs1, constraints, typ, classname⟩ :: rest1, rr,
      by simp [renameInstanceList, hb, hr], StateStep_trans sb sr⟩

theorem renameModuleAuxT (m : Module InternedStr) :
    ∃ m' r', renameModuleAux m = some (m', r') ∧ StateStep initRenamer r' := by
  obtain ⟨is1, r1, h1, s1⟩ := renameInstanceListT m.instances initRenamer
  obtain ⟨bs1, r2, h2, s2⟩ := renameBindingListT m.bindings r1
  rcases hmu : r2.make_unique m.name with ⟨n, r3⟩
  have s3 : StateStep r2 r3 := by
    have h3 := make_unique_StateStep r2 m.name
    rwa [hmu] at h3
  refine ⟨{ name := n, classes := m.classes,
            dataDefinitions := m.dataDefinitions.map renameDataDefinition,
            typeDeclarations := m.typeDeclarations, bindings := bs1,
            instances := is1 }, r3, ?_, StateStep_trans s1 (StateStep_trans s2 s3)⟩
  simp [renameModuleAux, h1, h2, hmu]

/-! ### Concrete test inputs (the spec's testable properties, §8) and their
renamed outputs -/

/-- `lambda x -> lambda x -> x` (spec §8, shadowing). -/
def shadowEx : TypedExpr InternedStr :=
  .mk (.Lambda "x" (.mk (.Lambda "x" (.mk (.Identifier "x") 0 0)) 0 0)) 0 0

/-- The renamed form of `shadowEx`: outer parameter uid 2, inner uid 3, and
the reference resolves to the inner uid 3. -/
def shadowExOut : TypedExpr Name :=
  .mk (.Lambda ⟨"x", 2⟩ (.mk (.Lambda ⟨"x", 3⟩
    (.mk (.Identifier ⟨"x", 3⟩) 0 0)) 0 0)) 0 0

/-- The binding `f = lambda x -> apply(f, x)` of the letrec example. -/
def fBinding : Binding InternedStr :=
  .mk "f" (.mk (.Lambda "x" (.mk (.Apply (.mk (.Identifier "f") 0 0)
    (.mk (.Identifier "x") 0 0)) 0 0)) 0 0) 0 0

/-- `let f = lambda x -> apply(f, x) in apply(f, 1)` (spec §8, letrec
visibility). -/
def letrecEx : TypedExpr InternedStr :=
  .mk (.Let [fBinding] (.mk (.Apply (.mk (.Identifier "f") 0 0)
    (.mk (.Number 1) 0 0)) 0 0)) 0 0

/-- The renamed form of `letrecEx`: both `f` occurrences carry the binding's
uid 2, and `x` carries its own distinct uid 3. -/
def letrecExOut : TypedExpr Name :=
  .mk (.Let [.mk ⟨"f", 2⟩ (.mk (.Lambda ⟨"x", 3⟩
      (.mk (.Apply (.mk (.Identifier ⟨"f", 2⟩) 0 0)
        (.mk (.Identifier ⟨"x", 3⟩) 0 0)) 0 0)) 0 0) 0 0]
    (.mk (.Apply (.mk (.Identifier ⟨"f", 2⟩) 0 0)
      (.mk (.Number 1) 0 0)) 0 0)) 0 0

/-- A lambda whose body applies the do-block `{ let v = 1; action(v) }` to a
trailing reference to `v` that sits after the do-block but inside the same
enclosing lambda scope (spec §8, do-block leak). -/
def doLeakEx : TypedExpr InternedStr :=
  .mk (.Lambda "y" (.mk (.Apply
    (.mk (.Do [.DoLet [.mk "v" (.mk (.Number 1) 0 0) 0 0]]
      (.mk (.Apply (.mk (.Identifier "action") 0 0)
        (.mk (.Identifier "v") 0 0)) 0 0)) 0 0)
    (.mk (.Identifier "v") 0 0)) 0 0)) 0 0

/-- The renamed form of `doLeakEx`: the do-let binding `v` gets uid 3 and the
trailing reference to `v` after the do-block still resolves to uid 3 — the
binding leaked out of the do-block. -/
def doLeakExOut : TypedExpr Name :=
  .mk (.Lambda ⟨"y", 2⟩ (.mk (.Apply
    (.mk (.Do [.DoLet [.mk ⟨"v", 3⟩ (.mk (.Number 1) 0 0) 0 0]]
      (.mk (.Apply (.mk (.Identifier ⟨"action", 0⟩) 0 0)
        (.mk (.Identifier ⟨"v", 3⟩) 0 0)) 0 0)) 0 0)
    (.mk (.Identifier ⟨"v", 3⟩) 0 0)) 0 0)) 0 0

/-- `case e of { C x -> x; D y -> apply(x, y) }` — the second alternative
references the `x` bound only by the first alternative's pattern (spec §8,
case isolation). -/
def caseEx : TypedExpr InternedStr :=
  .mk (.Case (.mk (.Identifier "e") 0 0)
    [.mk (Located.mk 0 (.ConstructorPattern "C" [.IdentifierPattern "x"]))
       (.mk (.Identifier "x") 0 0),
     .mk (Located.mk 0 (.ConstructorPattern "D" [.IdentifierPattern "y"]))
       (.mk (.Apply (.mk (.Identifier "x") 0 0)
         (.mk (.Identifier "y") 0 0)) 0 0)]) 0 0

/-- The renamed form of `caseEx`: the first alternative's `x` gets uid 2 and
is referenced as uid 2 there, while the `x` inside the second alternative
resolves to uid 0 — the first alternative's binding is not visible. -/
def caseExOut : TypedExpr Name :=
  .mk (.Case (.mk (.Identifier ⟨"e", 0⟩) 0 0)
    [.mk (Located.mk 0 (.ConstructorPattern ⟨"C", 0⟩ [.IdentifierPattern ⟨"x", 2⟩]))
       (.mk (.Identifier ⟨"x", 2⟩) 0 0),
     .mk (Located.mk 0 (.ConstructorPattern ⟨"D", 0⟩ [.IdentifierPattern ⟨"y", 3⟩]))
       (.mk (.Apply (.mk (.Identifier ⟨"x", 0⟩) 0 0)
         (.mk (.Identifier ⟨"y", 3⟩) 0 0)) 0 0)]) 0 0

/-- `apply(g, g)` with `g` unbound: two independent unresolved references to
the same symbol (spec §8, global fallback). -/
def twoGlobalsEx : TypedExpr InternedStr :=
  .mk (.Apply (.mk (.Identifier "g") 0 0) (.mk (.Identifier "g") 0 0)) 0 0

/-- The renamed form of `twoGlobalsEx`: both references become the equal
value `Name{g, 0}`, and nothing was registered (the final state is the
initial one). -/
def twoGlobalsExOut : TypedExpr Name :=
  .mk (.Apply (.mk (.Identifier ⟨"g", 0⟩) 0 0)
    (.mk (.Identifier ⟨"g", 0⟩) 0 0)) 0 0

/-- `lambda C -> case C of { C _ -> C }`: a constructor pattern whose name
collides with a local binding of the same text (spec §8, constructor
identity). -/
def ctorShadowEx : TypedExpr InternedStr :=
  .mk (.Lambda "C" (.mk (.Case (.mk (.Identifier "C") 0 0)
    [.mk (Located.mk 0 (.ConstructorPattern "C" [.WildCardPattern]))
       (.mk (.Identifier "C") 0 0)]) 0 0)) 0 0

/-- The renamed form of `ctorShadowEx`: the constructor name gets uid 0 even
though the local `C` (uid 2) is in scope, while the identifier occurrences
resolve to uid 2. -/
def ctorShadowExOut : TypedExpr Name :=
  .mk (.Lambda ⟨"C", 2⟩ (.mk (.Case (.mk (.Identifier ⟨"C", 2⟩) 0 0)
    [.mk (Located.mk 0 (.ConstructorPattern ⟨"C", 0⟩ [.WildCardPattern]))
       (.mk (.Identifier ⟨"C", 2⟩) 0 0)]) 0 0)) 0 0

/-- A module with one data definition (constructor `K`) and two mutually
referring top-level bindings `f = g` and `g = f`. -/
def siblingModule : Module InternedStr :=
  { name := "M", classes := 0,
    dataDefinitions := [{ constructors := [{ name := "K", typ := 0, tag := 0, arity := 0 }],
                          typ := 0, parameters := 0 }],
    typeDeclarations := 0,
    bindings := [.mk "f" (.mk (.Identifier "g") 0 0) 0 0,
                 .mk "g" (.mk (.Identifier "f") 0 0) 0 0],
    instances := [] }

/-- The renamed form of `siblingModule`: the constructor and both binding
names (and the cross references between the sibling bindings) all carry
uid 0 — nothing was pre-registered — while the module's own name is freshly
allocated uid 2. -/
def siblingModuleOut : Module Name :=
  { name := ⟨"M", 2⟩, classes := 0,
    dataDefinitions := [{ constructors := [{ name := ⟨"K", 0⟩, typ := 0, tag := 0, arity := 0 }],
                          typ := 0, parameters := 0 }],
    typeDeclarations := 0,
    bindings := [.mk ⟨"f", 0⟩ (.mk (.Identifier ⟨"g", 0⟩) 0 0) 0 0,
                 .mk ⟨"g", 0⟩ (.mk (.Identifier ⟨"f", 0⟩) 0 0) 0 0],
    instances := [] }

/-- `let x = 1; x = 2 in x`: two bindings of the same group sharing one
source symbol. -/
def dupEx : TypedExpr InternedStr :=
  .mk (.Let [.mk "x" (.mk (.Number 1) 0 0) 0 0,
             .mk "x" (.mk (.Number 2) 0 0) 0 0]
    (.mk (.Identifier "x") 0 0)) 0 0

/-- The renamed form of `dupEx`: both binding occurrences and the body
reference all carry uid 3 — the uid of the textually last duplicate — while
the earlier issued uid 2 appears nowhere. -/
def dupExOut : TypedExpr Name :=
  .mk (.Let [.mk ⟨"x", 3⟩ (.mk (.Number 1) 0 0) 0 0,
             .mk ⟨"x", 3⟩ (.mk (.Number 2) 0 0) 0 0]
    (.mk (.Identifier ⟨"x", 3⟩) 0 0)) 0 0

/-! ### Helper facts about the initial allocator state -/

/-- For a pass started from the fresh state, the ghost trace is exactly the
consecutive uids `2, 3, …, unique_id`. -/
theorem issued_of_init {r' : Renamer} (h : traceStep initRenamer r') :
    r'.issued = List.range' 2 (r'.unique_id - 1) := by
  have h2 := h.2
  simpa [initRenamer] using h2

/-- A trace of consecutive uids starting at 2 has pairwise-distinct entries
and, when non-empty, starts with 2. -/
theorem nodup_head_of_init {r' : Renamer} (h : traceStep initRenamer r') :
    r'.issued.Nodup ∧ (r'.issued ≠ [] → r'.issued.head? = some 2) := by
  rw [issued_of_init h]
  constructor
  · exact List.nodup_range' _ _
  · intro hne
    rcases hk : r'.unique_id - 1 with - | k
    · rw [hk] at hne; simp at hne
    · rw [List.range'_succ]; rfl


/-! ### The claims -/

/-- **C1**: For every input to a single renaming pass (`rename_expr` or
`rename_module`), all positive uids issued by the allocator are pairwise
distinct, and the first uid ever issued in the pass equals 2 (the counter is
initialized to 1 and incremented before each issue, so 1 is never
issued). -/
theorem c1_issued_uids_distinct_first_two :
    (∀ (e : TypedExpr InternedStr) (e' : TypedExpr Name) (r' : Renamer),
       rename initRenamer e = some (e', r') →
       r'.issued.Nodup ∧ (r'.issued ≠ [] → r'.issued.head? = some 2)) ∧
    (∀ (m : Module InternedStr) (m' : Module Name) (r' : Renamer),
       renameModuleAux m = some (m', r') →
       r'.issued.Nodup ∧ (r'.issued ≠ [] → r'.issued.head? = some 2)) := by
  constructor
  · intro e e' r' h
    obtain ⟨e1, r1, h1, s1, -⟩ := renameT initRenamer e
    obtain ⟨rfl, rfl⟩ := pair_eq_of_some (h1.symm.trans h)
    exact nodup_head_of_init s1.2
  · intro m m' r' h
    obtain ⟨m1, r1, h1, s1⟩ := renameModuleAuxT m
    obtain ⟨rfl, rfl⟩ := pair_eq_of_some (h1.symm.trans h)
    exact nodup_head_of_init s1.2

/-- Witness for C1 at the concrete input `shadowEx`: the pass issues the
trace `[2, 3]`, which is duplicate-free and starts with 2. -/
theorem c1_issued_uids_distinct_first_two_witness :
    ([2, 3] : List Nat).Nodup ∧
      (([2, 3] : List Nat) ≠ [] → ([2, 3] : List Nat).head? = some 2) :=
  c1_issued_uids_distinct_first_two.1 shadowEx shadowExOut
    ⟨⟨[[]]⟩, 3, [2, 3]⟩ (by rfl)

/-- **C2**: For every `Let`, a fresh binding is registered for every
binding's name before any binding's expression is renamed (after phase one,
every sibling's name resolves in the scoped map), and on the letrec example
`let f = lambda x -> apply(f, x) in apply(f, 1)` both occurrences of `f`
resolve to the uid 2 of `f`'s binding while `x` gets its own distinct
uid 3. -/
theorem c2_letrec_visibility :
    (∀ (r : Renamer) (bs : List (Binding InternedStr)), ∀ b ∈ bs,
       (((registerBindings r bs).uniques.find b.name)).isSome) ∧
    rename_expr letrecEx = some letrecExOut := by
  constructor
  · intro r bs b hb
    exact registerBindings_find bs r b hb
  · rfl

/-- Witness for C2: after phase one of the letrec example's binding group,
`f`'s own name resolves in the scoped map. -/
theorem c2_letrec_visibility_witness :
    (((registerBindings initRenamer [fBinding]).uniques.find fBinding.name)).isSome :=
  c2_letrec_visibility.1 initRenamer [fBinding] fBinding (List.mem_cons_self _ _)

/-- **C3**: Lookup always returns the binding from the innermost scope frame
containing the symbol, and on `lambda x -> lambda x -> x` the innermost `x`
reference renames to the inner lambda's uid 3, never the outer's uid 2. -/
theorem c3_shadowing_innermost :
    (∀ (m : ScopedMap) (f : List (InternedStr × Name))
       (fs : List (List (InternedStr × Name))) (k : InternedStr) (v : Name),
       m.frames = f :: fs → frameLookup f k = some v → m.find k = some v) ∧
    rename_expr shadowEx = some shadowExOut := by
  constructor
  · intro m f fs k v hf hl
    simp [ScopedMap.find, hf, findInFrames, hl]
  · rfl

/-- Witness for C3: with an inner frame binding `x` to uid 3 over an outer
frame binding it to uid 2, lookup returns the innermost entry, uid 3. -/
theorem c3_shadowing_innermost_witness :
    (ScopedMap.mk [[("x", ⟨"x", 3⟩)], [("x", ⟨"x", 2⟩)]]).find "x" = some ⟨"x", 3⟩ :=
  c3_shadowing_innermost.1 (ScopedMap.mk [[("x", ⟨"x", 3⟩)], [("x", ⟨"x", 2⟩)]])
    [("x", ⟨"x", 3⟩)] [[("x", ⟨"x", 2⟩)]] "x" ⟨"x", 3⟩ rfl (by rfl)

/-- **C4**: Renaming a `Do` pushes no scope frame of its own: the statement
loop only extends the frame that is current when the `Do` is renamed (outer
frames untouched, the innermost frame only gains entries — nothing is
popped), and on the concrete `lambda y -> apply({ let v = 1; action(v) }, v)`
the trailing reference to `v` after the do-block still resolves to the
do-let binding's uid 3. -/
theorem c4_do_block_leak :
    (∀ (r : Renamer) (ds : List (DoBinding InternedStr))
       (ds' : List (DoBinding Name)) (r' : Renamer)
       (f : List (InternedStr × Name)) (fs : List (List (InternedStr × Name))),
       renameDoBindings r ds = some (ds', r') → r.uniques.frames = f :: fs →
       ∃ g, r'.uniques.frames = (g ++ f) :: fs) ∧
    rename_expr doLeakEx = some doLeakExOut := by
  constructor
  · intro r ds ds' r' f fs h hf
    obtain ⟨ds1, r1, h1, s1, -⟩ := renameDoBindingsT r ds
    obtain ⟨rfl, rfl⟩ := pair_eq_of_some (h1.symm.trans h)
    exact s1.1 f fs hf
  · rfl

/-- Witness for C4: renaming the statement list `[let v = 1]` from the fresh
state extends the base frame in place (with the entry for `v`). -/
theorem c4_do_block_leak_witness :
    ∃ g, (Renamer.mk ⟨[[("v", ⟨"v", 2⟩)]]⟩ 2 [2]).uniques.frames =
      (g ++ ([] : List (InternedStr × Name))) :: [] :=
  c4_do_block_leak.1 initRenamer [.DoLet [.mk "v" (.mk (.Number 1) 0 0) 0 0]]
    [.DoLet [.mk ⟨"v", 2⟩ (.mk (.Number 1) 0 0) 0 0]]
    (Renamer.mk ⟨[[("v", ⟨"v", 2⟩)]]⟩ 2 [2]) [] [] (by rfl) rfl

/-- **C5**: Every `Case` alternative is renamed inside its own
independently entered-and-exited scope frame: the alternative loop returns
the scoped map exactly as it received it, so no alternative's pattern
bindings are visible to any other alternative or to the scrutinee; on
`case e of { C x -> x; D y -> apply(x, y) }` the `x` of the first
alternative gets uid 2 there, while the `x` inside the second alternative
resolves to uid 0 — it is not referenceable. -/
theorem c5_case_isolation :
    (∀ (r : Renamer) (alts : List (Alternative InternedStr))
       (alts' : List (Alternative Name)) (r' : Renamer),
       renameAlts r alts = some (alts', r') → r'.uniques = r.uniques) ∧
    rename_expr caseEx = some caseExOut := by
  constructor
  · intro r alts alts' r' h
    obtain ⟨alts1, r1, h1, hu, -, -⟩ := renameAltsT r alts
    obtain ⟨rfl, rfl⟩ := pair_eq_of_some (h1.symm.trans h)
    exact hu
  · rfl

/-- Witness for C5: renaming the single alternative `C x -> x` from the
fresh state leaves the scoped map exactly as it was (the `x` binding is
gone). -/
theorem c5_case_isolation_witness :
    (Renamer.mk ⟨[[]]⟩ 2 [2]).uniques = initRenamer.uniques :=
  c5_case_isolation.1 initRenamer
    [.mk (Located.mk 0 (.ConstructorPattern "C" [.IdentifierPattern "x"]))
       (.mk (.Identifier "x") 0 0)]
    [.mk (Located.mk 0 (.ConstructorPattern ⟨"C", 0⟩ [.IdentifierPattern ⟨"x", 2⟩]))
       (.mk (.Identifier ⟨"x", 2⟩) 0 0)]
    (Renamer.mk ⟨[[]]⟩ 2 [2]) (by rfl)

/-- **C6**: Renaming an identifier found in no enclosing frame produces
`Name{symbol, uid: 0}` without registering anything and without any error
(the renamer state is returned unchanged and the result is `some`); an
identifier that is found reuses the stored uid; hence two independent
unresolved references to the same symbol rename to equal `Name` values, as
on `apply(g, g)`. -/
theorem c6_global_fallback :
    (∀ (r : Renamer) (s : InternedStr), r.uniques.find s = none →
       r.get_name s = { name := s, uid := 0 }) ∧
    (∀ (r : Renamer) (s : InternedStr) (n : Name), r.uniques.find s = some n →
       r.get_name s = { name := s, uid := n.uid }) ∧
    (∀ (r : Renamer) (i : InternedStr) (typ : TypeRep) (location : Location),
       rename r (.mk (.Identifier i) typ location) =
         some (.mk (.Identifier (r.get_name i)) typ location, r)) ∧
    rename_expr twoGlobalsEx = some twoGlobalsExOut := by
  refine ⟨?_, ?_, ?_, ?_⟩
  · intro r s h
    simp [Renamer.get_name, h]
  · intro r s n h
    simp [Renamer.get_name, h]
  · intro r i typ location
    rfl
  · rfl

/-- Witness for C6: the unresolved `g` renames to uid 0 in the fresh state,
and a stored binding `x ↦ uid 7` is reused as uid 7. -/
theorem c6_global_fallback_witness :
    initRenamer.get_name "g" = { name := "g", uid := 0 } ∧
    (Renamer.mk ⟨[[("x", ⟨"x", 7⟩)]]⟩ 7 []).get_name "x" = { name := "x", uid := 7 } :=
  ⟨c6_global_fallback.1 initRenamer "g" (by rfl),
   c6_global_fallback.2.1 (Renamer.mk ⟨[[("x", ⟨"x", 7⟩)]]⟩ 7 []) "x" ⟨"x", 7⟩ (by rfl)⟩

/-- **C7**: Every constructor name (in a constructor pattern or a module
data definition) and every instance or top-level binding's own name is
renamed to `Name{symbol, uid: 0}` unconditionally — never looked up and
never freshly allocated, whatever is in scope — and sibling module bindings
are not pre-registered as a group: in `siblingModule`, `f`'s expression
resolves `g` as uid 0 and vice versa, and in `ctorShadowEx` the constructor
pattern's `C` gets uid 0 even though a local `C` (uid 2) is in scope. -/
theorem c7_uid_zero_constructors_and_module_bindings :
    (∀ (r : Renamer) (s : InternedStr) (ps : List (Pattern InternedStr)),
       (rename_pattern r (.ConstructorPattern s ps)).1 =
         .ConstructorPattern { name := s, uid := 0 } (renamePatterns r ps).1) ∧
    (∀ c : Constructor InternedStr,
       (renameConstructor c).name = { name := c.name, uid := 0 }) ∧
    (∀ (r : Renamer) (b : Binding InternedStr) (b' : Binding Name) (r' : Renamer),
       rename_binding r b = some (b', r') →
       b'.name = { name := b.name, uid := 0 }) ∧
    rename_expr ctorShadowEx = some ctorShadowExOut ∧
    rename_module siblingModule = some siblingModuleOut := by
  refine ⟨?_, ?_, ?_, ?_, ?_⟩
  · intro r s ps
    rcases h : renamePatterns r ps with ⟨ps1, r1⟩
    simp [rename_pattern, h]
  · intro c
    rfl
  · intro r b b' r' h
    obtain ⟨b1, r1, h1, -, hn⟩ := rename_bindingT r b
    obtain ⟨rfl, rfl⟩ := pair_eq_of_some (h1.symm.trans h)
    exact hn
  · rfl
  · rfl

/-- Witness for C7: renaming the binding `b = 1` from the fresh state gives
it the name `Name{b, 0}`. -/
theorem c7_uid_zero_constructors_and_module_bindings_witness :
    (Binding.mk (Name.mk "b" 0) (.mk (.Number 1) 0 0) 0 0 : Binding Name).name =
      { name := "b", uid := 0 } :=
  c7_uid_zero_constructors_and_module_bindings.2.2.1 initRenamer
    (.mk "b" (.mk (.Number 1) 0 0) 0 0)
    (.mk (Name.mk "b" 0) (.mk (.Number 1) 0 0) 0 0) initRenamer (by rfl)

/-- **C8**: `rename` is total over all expression variants and
shape-preserving: for every input of the public expression entry point, the
output exists and has exactly the same node kinds, arities and nesting as
the input, with every type annotation and source location carried through
unchanged — erasing the identifier payload of the output gives back the
erased input. -/
theorem c8_shape_preservation :
    ∀ e : TypedExpr InternedStr, ∃ e' : TypedExpr Name,
      rename_expr e = some e' ∧ shapeTE e' = shapeTE e := by
  intro e
  obtain ⟨e1, r1, h, -, m⟩ := renameT initRenamer e
  exact ⟨e1, by simp [rename_expr, h], m⟩

/-- **C9**: For every input reachable from the public entry points, the
phase-two lookup of a let-binding's own name always succeeds, so the fatal
abort (`none` in this embedding) is unreachable and the renaming pass never
fails: `rename_bindings` always returns `some`, and so do `rename_expr` and
`rename_module`. -/
theorem c9_rename_never_fails :
    (∀ (r : Renamer) (bs : List (Binding InternedStr)),
       ∃ out, rename_bindings r bs = some out) ∧
    (∀ e : TypedExpr InternedStr, (rename_expr e).isSome) ∧
    (∀ m : Module InternedStr, (rename_module m).isSome) := by
  refine ⟨?_, ?_, ?_⟩
  · intro r bs
    obtain ⟨bs1, r1, h, -⟩ := rename_bindingsT r bs
    exact ⟨(bs1, r1), h⟩
  · intro e
    obtain ⟨e1, r1, h, -, -⟩ := renameT initRenamer e
    simp [rename_expr, h]
  · intro m
    obtain ⟨m1, r1, h, -⟩ := renameModuleAuxT m
    simp [rename_module, h]

/-- **C10**: When bindings of one let group share a symbol, each
registration issues a distinct fresh uid but overwrites the previous entry
of the frame (insertion wins every later lookup of that key), so on
`let x = 1; x = 2 in x` both binding occurrences and the body reference
carry the last duplicate's uid 3, uid 2 was issued (the trace is `[2, 3]`)
but occurs nowhere in the output. -/
theorem c10_duplicate_bindings :
    (∀ (m : ScopedMap) (k : InternedStr) (v : Name), (m.insert k v).find k = some v) ∧
    rename initRenamer dupEx = some (dupExOut, ⟨⟨[[]]⟩, 3, [2, 3]⟩) ∧
    (uidsTE dupExOut).count 2 = 0 ∧ uidsTE dupExOut = [3, 3, 3] := by
  refine ⟨?_, rfl, by decide, rfl⟩
  intro m k v
  obtain ⟨frames⟩ := m
  match frames with
  | [] => simp [ScopedMap.insert, ScopedMap.find, findInFrames, frameLookup]
  | f :: fs => simp [ScopedMap.insert, ScopedMap.find, findInFrames, frameLookup]

end Renaming
